import Mathlib

/-!
Verification of the kuzushiji-recognition pipeline core.

Shallow embedding of:
- `src/kr/datasets/kuzushiji_recognition.py`
  (`KuzushijiRecognitionDataset.get_example`, `KuzushijiUnicodeMapping`,
   the `num_samples` construction shared by `KuzushijiCharCropDataset` and
   `KuzushijiPseudoLabelsDataset`),
- `src/kr/classifier/softmax/mobilenetv3.py` (`relu6`, `hard_sigmoid`,
  `hard_swish`),
- `src/scripts/train_detector.py` (`Preprocessor`).

The heatmap encoder (`kr.detector.centernet.heatmap.generate_heatmap`) and
the crop transforms (`kr.detector.centernet.crop`) are imported by
`train_detector.py` but their source is not part of the repository snapshot;
they are modelled from the specification where needed, as marked on each
such definition.
-/

namespace KR

/-! ## Dataset adapter: `KuzushijiRecognitionDataset.get_example`

The Python code splits the `labels` CSV field into whitespace tokens and
takes the slices `labels[0::5]` (unicodes), `labels[1::5]` (x),
`labels[2::5]` (y), `labels[3::5]` (w), `labels[4::5]` (h); the numeric
slices are passed through `int`, stacked into an `(n, 4)` array, and the
last two columns are shifted by the first two, producing `(x1, y1, x2, y2)`
boxes.  A `labels` field that is not a string (`NaN`) raises
`AttributeError` on `.split()`, which is caught and turned into empty
outputs.  We embed the function from the token list on (string splitting
and image loading are external I/O); a labels field that is not a string is
`none`, and an uncaught parse failure (`ValueError` from `int`) is a `none`
result. -/

/-- Python slice `l[0::5]`: every fifth element, starting at the head. -/
def sliceEvery5 : List α → List α
  | [] => []
  | [a] => [a]
  | [a, _] => [a]
  | [a, _, _] => [a]
  | [a, _, _, _] => [a]
  | a :: _ :: _ :: _ :: _ :: rest => a :: sliceEvery5 rest

/-- The value of a decimal digit character. -/
def digitVal (c : Char) : Option ℕ :=
  if '0' ≤ c ∧ c ≤ '9' then some (c.toNat - '0'.toNat) else none

/-- Accumulate the decimal value of a digit string. -/
def parseNatAux : List Char → ℕ → Option ℕ
  | [], acc => some acc
  | c :: cs, acc =>
    match digitVal c with
    | some d => parseNatAux cs (acc * 10 + d)
    | none => none

/-- Python `int(token)` on a whitespace-free token: an optional leading
minus sign followed by at least one decimal digit; anything else raises
`ValueError`, i.e. `none`. -/
def pyInt (s : String) : Option Int :=
  match s.data with
  | [] => none
  | '-' :: cs =>
    if cs.isEmpty then none
    else (parseNatAux cs 0).map fun n => -(n : Int)
  | cs => (parseNatAux cs 0).map fun n => (n : Int)

/-- `[int(v) for v in l]`: parse every token as an integer, propagating
failure (Python `ValueError`). -/
def parseInts : List String → Option (List Int)
  | [] => some []
  | s :: rest =>
    match pyInt s, parseInts rest with
    | some v, some vs => some (v :: vs)
    | _, _ => none

/-- `np.transpose(np.array([x, y, w, h]))` followed by
`bboxes[:, 2:4] += bboxes[:, 0:2]`: rows `(x, y, x + w, y + h)`. -/
def buildBboxes : List Int → List Int → List Int → List Int →
    List (Int × Int × Int × Int)
  | x :: xs, y :: ys, w :: ws, h :: hs =>
    (x, y, x + w, y + h) :: buildBboxes xs ys ws hs
  | _, _, _, _ => []

/-- `KuzushijiRecognitionDataset.get_example`, restricted to the
annotation fields it computes from the `labels` CSV field.  The input is
the whitespace-token list of the `labels` field (`none` when the field is
not a string, in which case `.split()` raises `AttributeError` and the
`except` branch returns empty outputs). -/
def get_example (labelsField : Option (List String)) :
    Option (List String × List (Int × Int × Int × Int)) :=
  match labelsField with
  | none => some ([], [])
  | some toks =>
    match parseInts (sliceEvery5 (toks.drop 1)),
          parseInts (sliceEvery5 (toks.drop 2)),
          parseInts (sliceEvery5 (toks.drop 3)),
          parseInts (sliceEvery5 (toks.drop 4)) with
    | some xs, some ys, some ws, some hs =>
      some (sliceEvery5 toks, buildBboxes xs ys ws hs)
    | _, _, _, _ => none

/-! ## `KuzushijiUnicodeMapping`

The constructor reads the unicode translation CSV (header line dropped) and
fills three Python dicts in one pass over the rows:
`_unicode_to_char[uni] = char`, `_index_to_unicode[i] = uni`,
`_unicode_to_index[uni] = i`.  We embed the mapping from the list of
unicode column values in file order.  Dict insertion overwrites, so
`_unicode_to_index` holds the **last** row index of each unicode, which the
left fold below reproduces; `_index_to_unicode` is keyed by the distinct
row indices, i.e. plain positional lookup; `len(mapping)` is the number of
distinct unicode keys of `_unicode_to_char`.  Dict lookup on a missing key
raises `KeyError`, hence the `Option` results. -/

/-- `KuzushijiUnicodeMapping.unicode_to_index`: last row index holding `u`. -/
def unicode_to_index (entries : List String) (u : String) : Option ℕ :=
  entries.enum.foldl (fun acc p => if p.2 = u then some p.1 else acc) none

/-- `KuzushijiUnicodeMapping.index_to_unicode`: the unicode of row `i`. -/
def index_to_unicode (entries : List String) (i : ℕ) : Option String :=
  entries.get? i

/-- `len(KuzushijiUnicodeMapping())`: number of distinct unicode keys. -/
def mappingLen (entries : List String) : ℕ :=
  entries.dedup.length

/-! ## `num_samples` of the char-crop datasets

`KuzushijiCharCropDataset.__init__` (and identically
`KuzushijiPseudoLabelsDataset.__init__`) computes
`all_labels = [mapping.unicode_to_index(d['unicode']) for d in data]`,
then `num_samples = np.zeros(len(mapping))` followed by
`for label in all_labels: num_samples[label] += 1`. -/

/-- Map each annotation unicode to its class index, propagating a missing
key (`KeyError`). -/
def allLabels (entries : List String) : List String → Option (List ℕ)
  | [] => some []
  | u :: us =>
    match unicode_to_index entries u, allLabels entries us with
    | some i, some is => some (i :: is)
    | _, _ => none

/-- The `num_samples` histogram: start from `numClasses` zeros and bump the
cell of each label in turn. -/
def numSamples (numClasses : ℕ) (labels : List ℕ) : List ℕ :=
  labels.foldl (fun arr lab => arr.set lab (arr.getD lab 0 + 1))
    (List.replicate numClasses 0)

/-! ## MobileNetV3 activation functions

`relu6` is `F.clipped_relu(x, 6.)`, whose mathematical meaning is
`min(max(x, 0), 6)`; `hard_sigmoid x = relu6 (x + 3) / 6`;
`hard_swish x = x * relu6 (x + 3) / 6`. -/

/-- `F.clipped_relu(x, z)`: `min(max(x, 0), z)`. -/
noncomputable def clipped_relu (x z : ℝ) : ℝ := min (max x 0) z

/-- `relu6` from `mobilenetv3.py`. -/
noncomputable def relu6 (x : ℝ) : ℝ := clipped_relu x 6

/-- `hard_sigmoid` from `mobilenetv3.py`. -/
noncomputable def hard_sigmoid (x : ℝ) : ℝ := relu6 (x + 3) / 6

/-- `hard_swish` from `mobilenetv3.py`: `x * relu6(x + 3.) / 6.`. -/
noncomputable def hard_swish (x : ℝ) : ℝ := x * relu6 (x + 3) / 6

/-! ## Detector preprocessing (`train_detector.py`, class `Preprocessor`)

Boxes live in `(x1, y1, x2, y2)` form with rational coordinates (the crop
remap produces non-integral coordinates).  Images are embedded as rational
intensity fields sampled at rational coordinates, `image y x channel`. -/

/-- An axis-aligned box `(x1, y1, x2, y2)` in pixel coordinates. -/
structure Box where
  x1 : ℚ
  y1 : ℚ
  x2 : ℚ
  y2 : ℚ
deriving DecidableEq

/-- An image as an intensity field `y ↦ x ↦ channel ↦ value`. -/
def Image : Type := ℚ → ℚ → ℕ → ℚ

/-- One dataset example as handed to `Preprocessor.__call__`: the image,
its pixel dimensions, the ground-truth boxes and the parallel unicode
list. -/
structure InputData where
  width : ℚ
  height : ℚ
  image : Image
  bboxes : List Box
  unicodes : List String

/-- Clipped area of a box: `max 0 (x2-x1) * max 0 (y2-y1)`. -/
def boxArea (b : Box) : ℚ := max 0 (b.x2 - b.x1) * max 0 (b.y2 - b.y1)

/-- Modelled from the spec: the common core of the crop transforms of
`kr.detector.centernet.crop` (source file absent from the snapshot).
Given a crop rectangle with corner `(x0, y0)` and size `(cw, ch)` in
original-image coordinates, resize the crop to `input_size`, remap every
box by the same affine transform, clip boxes to the new frame and drop
boxes whose visible area after cropping falls below the
minimum-visibility fraction `3/10`, with the unicode list filtered in
lockstep. -/
def cropAt (x0 y0 cw ch : ℚ) (input_size : ℕ × ℕ) (d : InputData) :
    Image × List Box × List String :=
  let fx : ℚ := (input_size.1 : ℚ) / cw
  let fy : ℚ := (input_size.2 : ℚ) / ch
  let img : Image := fun y x c => d.image (y0 + y / fy) (x0 + x / fx) c
  let kept := (d.bboxes.zip d.unicodes).filterMap fun p =>
    let rb : Box := ⟨(p.1.x1 - x0) * fx, (p.1.y1 - y0) * fy,
                     (p.1.x2 - x0) * fx, (p.1.y2 - y0) * fy⟩
    let cb : Box := ⟨max 0 (min (input_size.1 : ℚ) rb.x1),
                     max 0 (min (input_size.2 : ℚ) rb.y1),
                     max 0 (min (input_size.1 : ℚ) rb.x2),
                     max 0 (min (input_size.2 : ℚ) rb.y2)⟩
    if 3 / 10 * boxArea rb ≤ boxArea cb ∧ 0 < boxArea cb
    then some (cb, p.2) else none
  (img, kept.map Prod.fst, kept.map Prod.snd)

/-- Modelled from the spec: `CenterCropAndResize` of
`kr.detector.centernet.crop` (source file absent from the snapshot) —
deterministic centered crop of the given scale, then resize to
`input_size` with the shared remap/clip rule of `cropAt`. -/
def centerCropAndResize (scale : ℚ) (input_size : ℕ × ℕ) (d : InputData) :
    Image × List Box × List String :=
  let cw := scale * d.width
  let ch := scale * d.height
  cropAt ((d.width - cw) / 2) ((d.height - ch) / 2) cw ch input_size d

/-- A linear-congruential step standing in for the external random number
generator consumed by the training-time augmentations. -/
def lcgNext (n : ℕ) : ℕ := (n * 1103515245 + 12345) % 2147483648

/-- A draw in `[0, 1)` from the generator state. -/
def randUnit (n : ℕ) : ℚ := ((n % 1000 : ℕ) : ℚ) / 1000

/-- Modelled from the spec: `RandomCropAndResize` of
`kr.detector.centernet.crop` (source file absent from the snapshot) —
random scale within `[lo, hi]` and random in-bounds offset drawn from the
generator state, then the shared remap/clip rule of `cropAt`; returns the
advanced generator state. -/
def randomCropAndResize (lo hi : ℚ) (input_size : ℕ × ℕ) (d : InputData)
    (rng : ℕ) : (Image × List Box × List String) × ℕ :=
  let r1 := lcgNext rng
  let r2 := lcgNext r1
  let r3 := lcgNext r2
  let scale := lo + (hi - lo) * randUnit r1
  let cw := scale * d.width
  let ch := scale * d.height
  (cropAt (randUnit r2 * (d.width - cw)) (randUnit r3 * (d.height - ch))
    cw ch input_size d, r3)

/-- Modelled from the spec: the photometric augmentation pipeline applied
only on the training path (augmentation policy itself is out of the
specified core); it consumes one random draw and perturbs intensities. -/
def augApply (img : Image) (rng : ℕ) : Image × ℕ :=
  let r := lcgNext rng
  ((fun y x c => img y x c + (randUnit r - 1 / 2) * 50), r)

/-! ### Heatmap encoder, modelled from the spec

`kr.detector.centernet.heatmap.generate_heatmap` is imported by
`train_detector.py` but its source file is absent from the snapshot; the
definitions below follow section 4.1 of the specification: per box, a
Gaussian radius from the CornerNet/CenterNet minimum-overlap-0.7 quadratic
formula, floored to an integer `≥ 0`; an unnormalized Gaussian
`exp(-((x-cx)² + (y-cy)²) / (2σ²))` splatted around the integer-rounded,
clamped box center, merged into the channel of the box's label by `max`;
and, per box and in input order, the flattened index `row * width + col`
of the clamped center. -/

/-- Modelled from the spec: the CornerNet/CenterNet Gaussian radius — the
minimum of the roots of the three IoU-preserving quadratic deformation
cases at minimum overlap `0.7`. -/
noncomputable def gaussian_radius (height width : ℝ) : ℝ :=
  let minOverlap : ℝ := 7 / 10
  let b1 := height + width
  let c1 := width * height * (1 - minOverlap) / (1 + minOverlap)
  let r1 := (b1 - Real.sqrt (b1 ^ 2 - 4 * c1)) / 2
  let b2 := 2 * (height + width)
  let c2 := (1 - minOverlap) * width * height
  let r2 := (b2 - Real.sqrt (b2 ^ 2 - 16 * c2)) / 8
  let b3 := -2 * minOverlap * (height + width)
  let c3 := (minOverlap - 1) * width * height
  let r3 := (b3 + Real.sqrt (b3 ^ 2 - 16 * minOverlap * c3)) /
    (8 * minOverlap)
  min r1 (min r2 r3)

/-- The integer splat radius of a box: the Gaussian radius of its height
and width, floored and clamped to `≥ 0`. -/
noncomputable def boxRadius (b : Box) : ℤ :=
  max 0 ⌊gaussian_radius ((b.y2 - b.y1 : ℚ) : ℝ) ((b.x2 - b.x1 : ℚ) : ℝ)⌋

/-- The integer-rounded box center column, clamped to `[0, width - 1]`. -/
def centerCol (b : Box) (heatmap_size : ℕ × ℕ) : ℤ :=
  max 0 (min ((heatmap_size.2 : ℤ) - 1) ⌊(b.x1 + b.x2) / 2⌋)

/-- The integer-rounded box center row, clamped to `[0, height - 1]`. -/
def centerRow (b : Box) (heatmap_size : ℕ × ℕ) : ℤ :=
  max 0 (min ((heatmap_size.1 : ℤ) - 1) ⌊(b.y1 + b.y2) / 2⌋)

/-- Modelled from the spec: the contribution of one box's Gaussian splat to
the heatmap cell `(y, x)` — `exp(-((x-cx)² + (y-cy)²) / (2σ²))` with
`σ = radius / 3`, restricted to the radius window around the clamped
integer center and to the heatmap bounds, `0` elsewhere. -/
noncomputable def splatValue (b : Box) (heatmap_size : ℕ × ℕ) (y x : ℕ) :
    ℝ :=
  if y < heatmap_size.1 ∧ x < heatmap_size.2 ∧
     |(x : ℤ) - centerCol b heatmap_size| ≤ boxRadius b ∧
     |(y : ℤ) - centerRow b heatmap_size| ≤ boxRadius b then
    Real.exp (-((((x : ℤ) : ℝ) - ((centerCol b heatmap_size : ℤ) : ℝ)) ^ 2 +
                (((y : ℤ) : ℝ) - ((centerRow b heatmap_size : ℤ) : ℝ)) ^ 2) /
              (2 * ((boxRadius b : ℝ) / 3) ^ 2))
  else 0

/-- The flattened heatmap index of a box: `row * width + col` of the
clamped integer center. -/
def flatIndex (b : Box) (heatmap_size : ℕ × ℕ) : ℕ :=
  ((centerRow b heatmap_size) * (heatmap_size.2 : ℤ) +
    centerCol b heatmap_size).toNat

/-- Modelled from the spec: `generate_heatmap` — a zero-initialized
`(num_classes, height, width)` heatmap into which each box's Gaussian is
merged by `max` on the channel of its label, together with the flattened
center index of every box in input order. -/
noncomputable def generate_heatmap (bboxes : List Box) (labels : List ℕ)
    (num_classes : ℕ) (heatmap_size : ℕ × ℕ) :
    (ℕ → ℕ → ℕ → ℝ) × List ℕ :=
  (fun c y x =>
    if c < num_classes then
      (bboxes.zip labels).foldl
        (fun acc p =>
          if p.2 = c then max acc (splatValue p.1 heatmap_size y x) else acc)
        0
    else 0,
   bboxes.map fun b => flatIndex b heatmap_size)

/-! ### `Preprocessor` -/

/-- Which crop transform `Preprocessor.__init__` installed as
`self.crop_func`. -/
inductive CropKind where
  | center (scale : ℚ)
  | random (lo hi : ℚ)
deriving DecidableEq

/-- The state `Preprocessor.__init__` stores on `self`. -/
structure Preprocessor where
  crop : CropKind
  hasAug : Bool
  heatmap_stride : ℕ
  heatmap_size : ℕ × ℕ
  input_size : ℕ × ℕ

/-- `Preprocessor.__init__`: with augmentation, a random crop over the
scale range and the photometric pipeline; without, a center crop at the
midpoint of the scale range and no augmentation.  In both cases
`heatmap_stride = 4` and `heatmap_size = input_size // 4`. -/
def mkPreprocessor (scale_range : ℚ × ℚ) (input_size : ℕ × ℕ)
    (augmentation : Bool) : Preprocessor :=
  { crop := if augmentation then CropKind.random scale_range.1 scale_range.2
            else CropKind.center ((scale_range.1 + scale_range.2) / 2),
    hasAug := augmentation,
    heatmap_stride := 4,
    heatmap_size := (input_size.1 / 4, input_size.2 / 4),
    input_size := input_size }

/-- A box with every coordinate divided by the stride
(`bboxes / self.heatmap_stride`). -/
def divBox (stride : ℕ) (b : Box) : Box :=
  ⟨b.x1 / (stride : ℚ), b.y1 / (stride : ℚ),
   b.x2 / (stride : ℚ), b.y2 / (stride : ℚ)⟩

/-- The crop step of `Preprocessor.__call__`: apply `self.crop_func`,
threading the generator state (untouched on the deterministic path). -/
def cropStep (p : Preprocessor) (d : InputData) (rng : ℕ) :
    (Image × List Box × List String) × ℕ :=
  match p.crop with
  | CropKind.center s => (centerCropAndResize s p.input_size d, rng)
  | CropKind.random lo hi => randomCropAndResize lo hi p.input_size d rng

/-- Normalization of the image: transpose to channel-first and
`(image - 127.5) / 128.0`. -/
def normalizeImage (img : Image) : ℕ → ℚ → ℚ → ℚ :=
  fun c y x => (img y x c - 255 / 2) / 128

/-- The tuple returned by `Preprocessor.__call__`. -/
structure PreOut where
  image : ℕ → ℚ → ℚ → ℚ
  heatmap : ℕ → ℕ → ℕ → ℝ
  labels : List ℕ
  indices : List ℕ

/-- `Preprocessor.__call__`: crop, optionally augment, normalize the
image, build the zero label array (one per surviving box) and encode the
stride-divided boxes into the heatmap, threading the generator state of
the random transforms. -/
noncomputable def preprocCall (p : Preprocessor) (d : InputData)
    (rng : ℕ) : PreOut × ℕ :=
  let c := cropStep p d rng
  let bboxes := c.1.2.1
  let au := if p.hasAug then augApply c.1.1 c.2 else (c.1.1, c.2)
  let labels : List ℕ := List.replicate bboxes.length 0
  let hm := generate_heatmap (bboxes.map (divBox p.heatmap_stride)) labels
    1 p.heatmap_size
  (⟨normalizeImage au.1, hm.1, labels, hm.2⟩, au.2)

/-! ## Helper lemmas -/

/-- A Gaussian splat contribution is nonnegative. -/
lemma splatValue_nonneg (b : Box) (sz : ℕ × ℕ) (y x : ℕ) :
    0 ≤ splatValue b sz y x := by
  unfold splatValue
  split
  · exact (Real.exp_pos _).le
  · exact le_refl 0

/-- A Gaussian splat contribution is at most `1`. -/
lemma splatValue_le_one (b : Box) (sz : ℕ × ℕ) (y x : ℕ) :
    splatValue b sz y x ≤ 1 := by
  unfold splatValue
  split
  · refine Real.exp_le_one_iff.mpr
      (div_nonpos_of_nonpos_of_nonneg (neg_nonpos.mpr ?_) ?_) <;> positivity
  · norm_num

/-- Length of the `[0::5]` slice: `⌈length / 5⌉`. -/
lemma sliceEvery5_length (l : List α) :
    (sliceEvery5 l).length = (l.length + 4) / 5 := by
  induction l using sliceEvery5.induct <;> (simp_all [sliceEvery5]; try omega)

/-- The `[0::5]` slice picks out the elements at indices `5 * i`. -/
lemma sliceEvery5_getElem? (l : List α) (i : ℕ) :
    (sliceEvery5 l)[i]? = l[5 * i]? := by
  induction l using sliceEvery5.induct generalizing i with
  | case1 => simp [sliceEvery5]
  | case2 a =>
    match i with
    | 0 => simp [sliceEvery5]
    | i + 1 => simp [sliceEvery5, List.getElem?_eq_none, Nat.mul_succ]
  | case3 a b =>
    match i with
    | 0 => simp [sliceEvery5]
    | i + 1 => simp [sliceEvery5, List.getElem?_eq_none, Nat.mul_succ]
  | case4 a b c =>
    match i with
    | 0 => simp [sliceEvery5]
    | i + 1 => simp [sliceEvery5, List.getElem?_eq_none, Nat.mul_succ]
  | case5 a b c d =>
    match i with
    | 0 => simp [sliceEvery5]
    | i + 1 => simp [sliceEvery5, List.getElem?_eq_none, Nat.mul_succ]
  | case6 a b c d e rest ih =>
    match i with
    | 0 => simp [sliceEvery5]
    | i + 1 =>
      have h5 : 5 * (i + 1) = 5 * i + 1 + 1 + 1 + 1 + 1 := by omega
      simp only [sliceEvery5, List.getElem?_cons_succ, h5]
      exact ih i

/-- A successful `parseInts` preserves the length. -/
lemma parseInts_length : ∀ {l : List String} {v : List Int},
    parseInts l = some v → v.length = l.length := by
  intro l
  induction l with
  | nil =>
    intro v h
    simp only [parseInts, Option.some.injEq] at h
    simp [← h]
  | cons s rest ih =>
    intro v h
    simp only [parseInts] at h
    cases hp : pyInt s <;> rw [hp] at h
    · exact absurd h (by simp)
    cases hr : parseInts rest <;> rw [hr] at h
    · exact absurd h (by simp)
    simp only [Option.some.injEq] at h
    simp [← h, ih hr]

/-- A successful `parseInts` parses elementwise. -/
lemma parseInts_getElem? : ∀ {l : List String} {v : List Int},
    parseInts l = some v → ∀ i : ℕ, Option.bind l[i]? pyInt = v[i]? := by
  intro l
  induction l with
  | nil =>
    intro v h i
    simp only [parseInts, Option.some.injEq] at h
    simp [← h]
  | cons s rest ih =>
    intro v h i
    simp only [parseInts] at h
    cases hp : pyInt s <;> rw [hp] at h
    · exact absurd h (by simp)
    cases hr : parseInts rest <;> rw [hr] at h
    · exact absurd h (by simp)
    simp only [Option.some.injEq] at h
    match i with
    | 0 => simp [← h, hp]
    | i + 1 => simp [← h, ih hr i]

/-- The assembled box array has one row per entry when the four numeric
columns have equal length. -/
lemma buildBboxes_length : ∀ (xs ys ws hs : List Int),
    ys.length = xs.length → ws.length = xs.length →
    hs.length = xs.length →
    (buildBboxes xs ys ws hs).length = xs.length := by
  intro xs
  induction xs with
  | nil =>
    intro ys ws hs h1 h2 h3
    cases ys <;> cases ws <;> cases hs <;> simp_all [buildBboxes]
  | cons x xs ih =>
    intro ys ws hs h1 h2 h3
    match ys, ws, hs with
    | y :: ys, w :: ws, h :: hs =>
      simp only [buildBboxes, List.length_cons]
      rw [ih ys ws hs (by simpa using h1) (by simpa using h2)
        (by simpa using h3)]
    | [], _, _ => simp at h1
    | _ :: _, [], _ => simp_all
    | _ :: _, _ :: _, [] => simp_all

/-- Rows of the assembled box array: `(x, y, x + w, y + h)`. -/
lemma buildBboxes_getElem? : ∀ (xs ys ws hs : List Int) (i : ℕ)
    (x y w h : Int), xs[i]? = some x → ys[i]? = some y →
    ws[i]? = some w → hs[i]? = some h →
    (buildBboxes xs ys ws hs)[i]? = some (x, y, x + w, y + h) := by
  intro xs
  induction xs with
  | nil => intro ys ws hs i x y w h hx; simp at hx
  | cons a xs ih =>
    intro ys ws hs i x y w h hx hy hw hh
    match ys, ws, hs with
    | b :: ys, c :: ws, e :: hs =>
      match i with
      | 0 =>
        simp only [List.getElem?_cons_zero, Option.some.injEq]
          at hx hy hw hh
        simp [buildBboxes, hx, hy, hw, hh]
      | i + 1 =>
        simp only [List.getElem?_cons_succ] at hx hy hw hh
        simpa [buildBboxes] using ih ys ws hs i x y w h hx hy hw hh
    | [], _, _ => simp at hy
    | _ :: _, [], _ => simp at hw
    | _ :: _, _ :: _, [] => simp at hh

/-- Appending a row to the mapping: the dict-overwrite lookup prefers the
new row. -/
lemma unicode_to_index_append (l : List String) (a u : String) :
    unicode_to_index (l ++ [a]) u
      = if a = u then some l.length else unicode_to_index l u := by
  unfold unicode_to_index
  rw [List.enum_append, List.foldl_append]
  simp [List.enumFrom]

/-- A found index is in range. -/
lemma unicode_to_index_lt : ∀ {l : List String} {u : String} {i : ℕ},
    unicode_to_index l u = some i → i < l.length := by
  intro l
  induction l using List.reverseRecOn with
  | nil => intro u i h; simp [unicode_to_index, List.enum] at h
  | append_singleton l a ih =>
    intro u i h
    rw [unicode_to_index_append] at h
    by_cases hau : a = u
    · rw [if_pos hau] at h
      cases h
      simp
    · rw [if_neg hau] at h
      calc i < l.length := ih h
        _ ≤ (l ++ [a]).length := by simp


/-- With pairwise-distinct rows, the dict lookup inverts positional
access. -/
lemma unicode_to_index_of_getElem? : ∀ {l : List String}, l.Nodup →
    ∀ {i : ℕ} {u : String}, l[i]? = some u →
    unicode_to_index l u = some i := by
  intro l
  induction l using List.reverseRecOn with
  | nil => intro _ i u h; simp at h
  | append_singleton l a ih =>
    intro hnd i u h
    rw [List.nodup_append] at hnd
    have hanotin : a ∉ l := fun ha => hnd.2.2 ha (by simp)
    rcases lt_trichotomy i l.length with hi | hi | hi
    · rw [List.getElem?_append_left hi] at h
      have hu : u ∈ l := List.getElem?_mem h
      have hau : a ≠ u := fun e => hanotin (e ▸ hu)
      rw [unicode_to_index_append, if_neg hau]
      exact ih hnd.1 h
    · rw [List.getElem?_append_right (le_of_eq hi.symm)] at h
      rw [hi, Nat.sub_self] at h
      simp only [List.getElem?_cons_zero, Option.some.injEq] at h
      rw [unicode_to_index_append, if_pos h, hi]
    · rw [List.getElem?_append_right (le_of_lt hi)] at h
      have : i - l.length ≠ 0 := by omega
      rw [List.getElem?_eq_none (by simp; omega)] at h
      exact absurd h (by simp)

/-- A successful `allLabels` preserves the length. -/
lemma allLabels_length : ∀ {us : List String} {ls : List ℕ}
    {entries : List String}, allLabels entries us = some ls →
    ls.length = us.length := by
  intro us
  induction us with
  | nil =>
    intro ls entries h
    simp only [allLabels, Option.some.injEq] at h
    simp [← h]
  | cons u us ih =>
    intro ls entries h
    simp only [allLabels] at h
    cases hu : unicode_to_index entries u <;> rw [hu] at h
    · exact absurd h (by simp)
    cases hr : allLabels entries us <;> rw [hr] at h
    · exact absurd h (by simp)
    simp only [Option.some.injEq] at h
    simp [← h, ih hr]

/-- Every produced label is a valid row index. -/
lemma allLabels_lt : ∀ {us : List String} {ls : List ℕ}
    {entries : List String}, allLabels entries us = some ls →
    ∀ x ∈ ls, x < entries.length := by
  intro us
  induction us with
  | nil =>
    intro ls entries h
    simp only [allLabels, Option.some.injEq] at h
    simp [← h]
  | cons u us ih =>
    intro ls entries h
    simp only [allLabels] at h
    cases hu : unicode_to_index entries u <;> rw [hu] at h
    · exact absurd h (by simp)
    cases hr : allLabels entries us <;> rw [hr] at h
    · exact absurd h (by simp)
    simp only [Option.some.injEq] at h
    intro x hx
    rw [← h] at hx
    rcases List.mem_cons.mp hx with hx | hx
    · exact hx ▸ unicode_to_index_lt hu
    · exact ih hr x hx

/-- Each label count equals the number of annotation unicodes mapping to
that class. -/
lemma allLabels_count : ∀ {us : List String} {ls : List ℕ}
    {entries : List String}, allLabels entries us = some ls →
    ∀ c : ℕ, ls.count c = (us.filter
      (fun u => unicode_to_index entries u == some c)).length := by
  intro us
  induction us with
  | nil =>
    intro ls entries h c
    simp only [allLabels, Option.some.injEq] at h
    simp [← h]
  | cons u us ih =>
    intro ls entries h c
    simp only [allLabels] at h
    cases hu : unicode_to_index entries u <;> rw [hu] at h
    · exact absurd h (by simp)
    case some i =>
    cases hr : allLabels entries us <;> rw [hr] at h
    · exact absurd h (by simp)
    simp only [Option.some.injEq] at h
    rw [← h]
    by_cases hic : i = c
    · subst hic
      simp [List.count_cons, List.filter_cons, hu, ih hr]
    · simp only [List.count_cons, List.filter_cons, hu]
      have hne : (some i == some c) = false := by
        simp [hic]
      rw [hne]
      simp [ih hr c, hic]

/-- The histogram fold preserves the array length. -/
lemma numSamplesFold_length : ∀ (labels : List ℕ) (arr : List ℕ),
    (labels.foldl (fun arr lab => arr.set lab (arr.getD lab 0 + 1))
      arr).length = arr.length := by
  intro labels
  induction labels with
  | nil => intro arr; rfl
  | cons lab ls ih =>
    intro arr
    rw [List.foldl_cons, ih, List.length_set]

/-- One histogram step at an in-range cell: the selected cell gains one,
others are untouched. -/
lemma set_bump_getD (arr : List ℕ) (lab c : ℕ) (hlab : lab < arr.length) :
    (arr.set lab (arr.getD lab 0 + 1)).getD c 0
      = if lab = c then arr.getD c 0 + 1 else arr.getD c 0 := by
  rw [List.getD_eq_getElem?_getD, List.getElem?_set]
  by_cases hlc : lab = c
  · subst hlc
    simp [hlab, List.getD_eq_getElem?_getD]
  · rw [if_neg hlc, if_neg hlc, ← List.getD_eq_getElem?_getD]

/-- The histogram fold computes occurrence counts on top of the initial
array. -/
lemma numSamplesFold_getD : ∀ (labels : List ℕ) (arr : List ℕ) (c : ℕ),
    (∀ l ∈ labels, l < arr.length) →
    (labels.foldl (fun arr lab => arr.set lab (arr.getD lab 0 + 1))
      arr).getD c 0 = arr.getD c 0 + labels.count c := by
  intro labels
  induction labels with
  | nil => intro arr c _; simp
  | cons lab ls ih =>
    intro arr c hb
    rw [List.foldl_cons,
      ih (arr.set lab (arr.getD lab 0 + 1)) c
        (fun l hl => by
          rw [List.length_set]
          exact hb l (List.mem_cons_of_mem lab hl)),
      set_bump_getD arr lab c (hb lab (List.mem_cons_self lab ls))]
    rw [List.count_cons]
    by_cases hlc : lab = c
    · subst hlc
      simp
      omega
    · have : (lab == c) = false := by simp [hlc]
      rw [this, if_neg hlc]
      simp

/-- One histogram step at an in-range cell raises the total by one. -/
lemma sum_set_bump : ∀ (arr : List ℕ) (i : ℕ), i < arr.length →
    (arr.set i (arr.getD i 0 + 1)).sum = arr.sum + 1 := by
  intro arr
  induction arr with
  | nil => intro i h; simp at h
  | cons a t ih =>
    intro i h
    match i with
    | 0 => simp [List.getD_cons_zero]; omega
    | i + 1 =>
      have ht := ih i (by simpa using h)
      simp only [List.set_cons_succ, List.getD_cons_succ, List.sum_cons, ht]
      omega

/-- The histogram fold raises the total by the number of processed
labels. -/
lemma numSamplesFold_sum : ∀ (labels : List ℕ) (arr : List ℕ),
    (∀ l ∈ labels, l < arr.length) →
    (labels.foldl (fun arr lab => arr.set lab (arr.getD lab 0 + 1))
      arr).sum = arr.sum + labels.length := by
  intro labels
  induction labels with
  | nil => intro arr _; simp
  | cons lab ls ih =>
    intro arr hb
    rw [List.foldl_cons,
      ih (arr.set lab (arr.getD lab 0 + 1))
        (fun l hl => by
          rw [List.length_set]
          exact hb l (List.mem_cons_of_mem lab hl)),
      sum_set_bump arr lab (hb lab (List.mem_cons_self lab ls))]
    simp [Nat.add_assoc, Nat.add_comm 1 ls.length]

/-! ## Claim theorems -/

/-- C3: for a `labels` field of `5 * k` whitespace tokens grouped as
`(unicode, x, y, w, h)` with the numeric tokens parsing as integers,
`get_example` returns the `k` unicode tokens in input order together with
a `k`-row box array whose `i`-th row is `(x_i, y_i, x_i + w_i, y_i + h_i)`
— `(x1, y1, x2, y2)` pixel boxes with `x1 < x2` and `y1 < y2` whenever
`w_i ≥ 1` and `h_i ≥ 1`. -/
theorem get_example_boxes_spec (toks : List String) (k : ℕ)
    (xs ys ws hs : List Int)
    (hlen : toks.length = 5 * k)
    (hx : parseInts (sliceEvery5 (toks.drop 1)) = some xs)
    (hy : parseInts (sliceEvery5 (toks.drop 2)) = some ys)
    (hw : parseInts (sliceEvery5 (toks.drop 3)) = some ws)
    (hh : parseInts (sliceEvery5 (toks.drop 4)) = some hs) :
    get_example (some toks)
      = some (sliceEvery5 toks, buildBboxes xs ys ws hs) ∧
    (buildBboxes xs ys ws hs).length = k ∧
    (sliceEvery5 toks).length = k ∧
    (∀ i : ℕ, (sliceEvery5 toks)[i]? = toks[5 * i]?) ∧
    (∀ i : ℕ, Option.bind toks[5 * i + 1]? pyInt = xs[i]?) ∧
    (∀ i : ℕ, Option.bind toks[5 * i + 2]? pyInt = ys[i]?) ∧
    (∀ i : ℕ, Option.bind toks[5 * i + 3]? pyInt = ws[i]?) ∧
    (∀ i : ℕ, Option.bind toks[5 * i + 4]? pyInt = hs[i]?) ∧
    (∀ (i : ℕ) (x y w h : Int), xs[i]? = some x → ys[i]? = some y →
      ws[i]? = some w → hs[i]? = some h →
      (buildBboxes xs ys ws hs)[i]? = some (x, y, x + w, y + h) ∧
      (1 ≤ w → x < x + w) ∧ (1 ≤ h → y < y + h)) := by
  have lx : xs.length = k := by
    rw [parseInts_length hx, sliceEvery5_length, List.length_drop, hlen]
    omega
  have ly : ys.length = k := by
    rw [parseInts_length hy, sliceEvery5_length, List.length_drop, hlen]
    omega
  have lw : ws.length = k := by
    rw [parseInts_length hw, sliceEvery5_length, List.length_drop, hlen]
    omega
  have lh : hs.length = k := by
    rw [parseInts_length hh, sliceEvery5_length, List.length_drop, hlen]
    omega
  refine ⟨?_, ?_, ?_, ?_, ?_, ?_, ?_, ?_, ?_⟩
  · simp only [get_example, hx, hy, hw, hh]
  · rw [buildBboxes_length xs ys ws hs (by omega) (by omega) (by omega), lx]
  · rw [sliceEvery5_length, hlen]; omega
  · exact fun i => sliceEvery5_getElem? toks i
  · intro i
    rw [← parseInts_getElem? hx i, sliceEvery5_getElem?,
      List.getElem?_drop]
    ring_nf
  · intro i
    rw [← parseInts_getElem? hy i, sliceEvery5_getElem?,
      List.getElem?_drop]
    ring_nf
  · intro i
    rw [← parseInts_getElem? hw i, sliceEvery5_getElem?,
      List.getElem?_drop]
    ring_nf
  · intro i
    rw [← parseInts_getElem? hh i, sliceEvery5_getElem?,
      List.getElem?_drop]
    ring_nf
  · intro i x y w h hx2 hy2 hw2 hh2
    exact ⟨buildBboxes_getElem? xs ys ws hs i x y w h hx2 hy2 hw2 hh2,
      fun hw1 => by omega, fun hh1 => by omega⟩

/-- C3 witness: the parsing theorem applied to the concrete token list
`U+0031 1 2 3 4`. -/
theorem get_example_boxes_spec_check :
    (["U+0031", "1", "2", "3", "4"].length = 5 * 1 ∧
     parseInts (sliceEvery5 (["U+0031", "1", "2", "3", "4"].drop 1))
       = some [1] ∧
     parseInts (sliceEvery5 (["U+0031", "1", "2", "3", "4"].drop 2))
       = some [2] ∧
     parseInts (sliceEvery5 (["U+0031", "1", "2", "3", "4"].drop 3))
       = some [3] ∧
     parseInts (sliceEvery5 (["U+0031", "1", "2", "3", "4"].drop 4))
       = some [4]) ∧
    get_example (some ["U+0031", "1", "2", "3", "4"])
      = some (sliceEvery5 ["U+0031", "1", "2", "3", "4"],
              buildBboxes [1] [2] [3] [4]) :=
  ⟨⟨by decide, by decide, by decide, by decide, by decide⟩,
   (get_example_boxes_spec ["U+0031", "1", "2", "3", "4"] 1
     [1] [2] [3] [4] (by decide) (by decide) (by decide) (by decide)
     (by decide)).1⟩

/-- C4: on a well-formed annotated row the unicode list and the box array
returned by `get_example` have the same length, and a row whose `labels`
field is not a string yields empty outputs without raising. -/
theorem get_example_parallel_graceful :
    get_example none = some ([], []) ∧
    ∀ (toks : List String) (k : ℕ) (xs ys ws hs : List Int),
      toks.length = 5 * k →
      parseInts (sliceEvery5 (toks.drop 1)) = some xs →
      parseInts (sliceEvery5 (toks.drop 2)) = some ys →
      parseInts (sliceEvery5 (toks.drop 3)) = some ws →
      parseInts (sliceEvery5 (toks.drop 4)) = some hs →
      ∃ us bs, get_example (some toks) = some (us, bs) ∧
        us.length = bs.length := by
  refine ⟨rfl, ?_⟩
  intro toks k xs ys ws hs hlen hx hy hw hh
  refine ⟨sliceEvery5 toks, buildBboxes xs ys ws hs, ?_, ?_⟩
  · simp only [get_example, hx, hy, hw, hh]
  · have lx : xs.length = k := by
      rw [parseInts_length hx, sliceEvery5_length, List.length_drop, hlen]
      omega
    have ly : ys.length = k := by
      rw [parseInts_length hy, sliceEvery5_length, List.length_drop, hlen]
      omega
    have lw : ws.length = k := by
      rw [parseInts_length hw, sliceEvery5_length, List.length_drop, hlen]
      omega
    have lh : hs.length = k := by
      rw [parseInts_length hh, sliceEvery5_length, List.length_drop, hlen]
      omega
    rw [sliceEvery5_length, hlen,
      buildBboxes_length xs ys ws hs (by omega) (by omega) (by omega), lx]
    omega

/-- C4 witness: the parallel-lengths theorem applied to the empty row and
to the concrete token list `U+0031 1 2 3 4`. -/
theorem get_example_parallel_graceful_check :
    (["U+0031", "1", "2", "3", "4"].length = 5 * 1 ∧
     parseInts (sliceEvery5 (["U+0031", "1", "2", "3", "4"].drop 1))
       = some [1] ∧
     parseInts (sliceEvery5 (["U+0031", "1", "2", "3", "4"].drop 2))
       = some [2] ∧
     parseInts (sliceEvery5 (["U+0031", "1", "2", "3", "4"].drop 3))
       = some [3] ∧
     parseInts (sliceEvery5 (["U+0031", "1", "2", "3", "4"].drop 4))
       = some [4]) ∧
    get_example none = some ([], []) ∧
    (∃ us bs, get_example (some ["U+0031", "1", "2", "3", "4"])
      = some (us, bs) ∧ us.length = bs.length) :=
  ⟨⟨by decide, by decide, by decide, by decide, by decide⟩,
   get_example_parallel_graceful.1,
   get_example_parallel_graceful.2 ["U+0031", "1", "2", "3", "4"] 1
     [1] [2] [3] [4] (by decide) (by decide) (by decide) (by decide)
     (by decide)⟩

/-- C10: for every real `x`, `relu6 x = min (max x 0) 6` lies in `[0, 6]`,
`hard_sigmoid x = relu6 (x + 3) / 6` lies in `[0, 1]`, and
`hard_swish x = x * hard_sigmoid x` exactly. -/
theorem hard_activations_spec (x : ℝ) :
    relu6 x = min (max x 0) 6 ∧
    0 ≤ relu6 x ∧ relu6 x ≤ 6 ∧
    hard_sigmoid x = relu6 (x + 3) / 6 ∧
    0 ≤ hard_sigmoid x ∧ hard_sigmoid x ≤ 1 ∧
    hard_swish x = x * hard_sigmoid x := by
  have key : ∀ y : ℝ, 0 ≤ relu6 y ∧ relu6 y ≤ 6 := by
    intro y
    constructor
    · exact le_min (le_max_right y 0) (by norm_num)
    · exact min_le_right _ _
  refine ⟨rfl, (key x).1, (key x).2, rfl, ?_, ?_, ?_⟩
  · exact div_nonneg (key (x + 3)).1 (by norm_num)
  · exact (div_le_one (by norm_num)).mpr (key (x + 3)).2
  · show x * relu6 (x + 3) / 6 = x * (relu6 (x + 3) / 6)
    ring

/-- C6: a `Preprocessor` constructed with `augmentation = False` installs
the deterministic center crop with scale `(scale_range[0] +
scale_range[1]) / 2` (`0.5` for the default range `(0.35, 0.65)`) and no
augmentation function. -/
theorem preprocessor_eval_center_midpoint (sr : ℚ × ℚ) (isz : ℕ × ℕ) :
    (mkPreprocessor sr isz false).crop
      = CropKind.center ((sr.1 + sr.2) / 2) ∧
    (mkPreprocessor sr isz false).hasAug = false ∧
    (mkPreprocessor (35 / 100, 65 / 100) isz false).crop
      = CropKind.center (1 / 2) := by
  refine ⟨rfl, rfl, ?_⟩
  show CropKind.center (((35 : ℚ) / 100 + 65 / 100) / 2)
    = CropKind.center (1 / 2)
  norm_num

/-- C1: the heatmap stride is fixed at `4`, `heatmap_size = (input_size[0]
// 4, input_size[1] // 4)` (so `416×416` yields `104×104`), and the boxes
handed to `generate_heatmap` are the cropped boxes with every coordinate
divided by `4`. -/
theorem heatmap_stride_four (sr : ℚ × ℚ) (isz : ℕ × ℕ) (aug : Bool)
    (d : InputData) (rng : ℕ) :
    (mkPreprocessor sr isz aug).heatmap_stride = 4 ∧
    (mkPreprocessor sr isz aug).heatmap_size = (isz.1 / 4, isz.2 / 4) ∧
    (mkPreprocessor sr (416, 416) aug).heatmap_size = (104, 104) ∧
    (∀ b : Box, divBox (mkPreprocessor sr isz aug).heatmap_stride b
      = ⟨b.x1 / 4, b.y1 / 4, b.x2 / 4, b.y2 / 4⟩) ∧
    (preprocCall (mkPreprocessor sr isz aug) d rng).1.heatmap
      = (generate_heatmap
          (((cropStep (mkPreprocessor sr isz aug) d rng).1.2.1).map
            (divBox 4))
          (List.replicate
            ((cropStep (mkPreprocessor sr isz aug) d rng).1.2.1).length 0)
          1 (isz.1 / 4, isz.2 / 4)).1 ∧
    (preprocCall (mkPreprocessor sr isz aug) d rng).1.indices
      = (generate_heatmap
          (((cropStep (mkPreprocessor sr isz aug) d rng).1.2.1).map
            (divBox 4))
          (List.replicate
            ((cropStep (mkPreprocessor sr isz aug) d rng).1.2.1).length 0)
          1 (isz.1 / 4, isz.2 / 4)).2 := by
  refine ⟨rfl, rfl, rfl, ?_, rfl, rfl⟩
  intro b
  simp only [divBox, mkPreprocessor]
  norm_num

/-- C5: the label array built by `Preprocessor.__call__` is
`np.zeros(len(bboxes))`: one entry per box surviving the crop — the same
count as the boxes handed to the heatmap encoder — and every entry is the
single class `0`. -/
theorem labels_one_zero_per_box (p : Preprocessor) (d : InputData)
    (rng : ℕ) :
    (preprocCall p d rng).1.labels
      = List.replicate ((cropStep p d rng).1.2.1).length 0 ∧
    ((preprocCall p d rng).1.labels).length
      = (((cropStep p d rng).1.2.1).map (divBox p.heatmap_stride)).length ∧
    ∀ v ∈ (preprocCall p d rng).1.labels, v = 0 := by
  refine ⟨rfl, ?_, ?_⟩
  · simp [preprocCall]
  · intro v hv
    exact List.eq_of_mem_replicate hv

/-- C7: with `augmentation = False` the preprocessing pipeline is pure —
its output does not depend on the random generator state, and the state is
returned untouched, so two calls on identical input are identical. -/
theorem preproc_eval_deterministic (sr : ℚ × ℚ) (isz : ℕ × ℕ)
    (d : InputData) (rng rng' : ℕ) :
    (preprocCall (mkPreprocessor sr isz false) d rng).1
      = (preprocCall (mkPreprocessor sr isz false) d rng').1 ∧
    (preprocCall (mkPreprocessor sr isz false) d rng).2 = rng := by
  constructor <;> simp [preprocCall, cropStep, mkPreprocessor]

/-- C2: in `generate_heatmap`, a cell reached by the Gaussians of two
boxes of the same class takes the maximum of the two individual
contributions, never their sum, and stays within `[0, 1]`. -/
theorem heatmap_gaussian_max_merge (b1 b2 : Box) (lab nc : ℕ)
    (sz : ℕ × ℕ) (y x : ℕ) (h : lab < nc) :
    (generate_heatmap [b1, b2] [lab, lab] nc sz).1 lab y x
      = max (splatValue b1 sz y x) (splatValue b2 sz y x) ∧
    0 ≤ (generate_heatmap [b1, b2] [lab, lab] nc sz).1 lab y x ∧
    (generate_heatmap [b1, b2] [lab, lab] nc sz).1 lab y x ≤ 1 := by
  have e : (generate_heatmap [b1, b2] [lab, lab] nc sz).1 lab y x
      = max (splatValue b1 sz y x) (splatValue b2 sz y x) := by
    simp only [generate_heatmap, List.zip_cons_cons, List.zip_nil_right,
      List.foldl_cons, List.foldl_nil, if_pos h, eq_self_iff_true, ite_true]
    rw [max_eq_right (splatValue_nonneg b1 sz y x)]
  refine ⟨e, ?_, ?_⟩
  · rw [e]
    exact le_max_of_le_left (splatValue_nonneg b1 sz y x)
  · rw [e]
    exact max_le (splatValue_le_one b1 sz y x) (splatValue_le_one b2 sz y x)

/-- C2 witness: the merge theorem applied at two concrete overlapping
boxes in channel `0` of a one-class `104×104` heatmap. -/
theorem heatmap_gaussian_max_merge_check :
    (0 : ℕ) < 1 ∧
    ((generate_heatmap [⟨0, 0, 8, 8⟩, ⟨2, 2, 10, 10⟩] [0, 0] 1
        (104, 104)).1 0 3 3
      = max (splatValue ⟨0, 0, 8, 8⟩ (104, 104) 3 3)
          (splatValue ⟨2, 2, 10, 10⟩ (104, 104) 3 3) ∧
    0 ≤ (generate_heatmap [⟨0, 0, 8, 8⟩, ⟨2, 2, 10, 10⟩] [0, 0] 1
        (104, 104)).1 0 3 3 ∧
    (generate_heatmap [⟨0, 0, 8, 8⟩, ⟨2, 2, 10, 10⟩] [0, 0] 1
        (104, 104)).1 0 3 3 ≤ 1) :=
  ⟨by decide,
   heatmap_gaussian_max_merge ⟨0, 0, 8, 8⟩ ⟨2, 2, 10, 10⟩ 0 1 (104, 104)
     3 3 (by decide)⟩

/-- C8: for a mapping built from pairwise-distinct unicode entries,
`unicode_to_index` and `index_to_unicode` are mutually inverse, over all
unicodes of the file and all indices below `len(mapping)`. -/
theorem mapping_bijective (entries : List String) (hnd : entries.Nodup) :
    mappingLen entries = entries.length ∧
    (∀ u ∈ entries, ∃ i, unicode_to_index entries u = some i ∧
      index_to_unicode entries i = some u) ∧
    (∀ i, i < mappingLen entries → ∃ u,
      index_to_unicode entries i = some u ∧
      unicode_to_index entries u = some i) := by
  have hml : mappingLen entries = entries.length := by
    unfold mappingLen
    rw [List.Nodup.dedup hnd]
  refine ⟨hml, ?_, ?_⟩
  · intro u hu
    obtain ⟨i, hi⟩ := List.getElem?_of_mem hu
    refine ⟨i, unicode_to_index_of_getElem? hnd hi, ?_⟩
    rw [index_to_unicode, List.get?_eq_getElem?]
    exact hi
  · intro i hi
    rw [hml] at hi
    have hgi : entries[i]? = some entries[i] := List.getElem?_eq_getElem hi
    refine ⟨entries[i], ?_, unicode_to_index_of_getElem? hnd hgi⟩
    rw [index_to_unicode, List.get?_eq_getElem?]
    exact hgi

/-- C8 witness: the inverse-mapping theorem applied to the concrete
two-row translation table `U+0041, U+0042`. -/
theorem mapping_bijective_check :
    (["U+0041", "U+0042"].Nodup) ∧
    (mappingLen ["U+0041", "U+0042"] = ["U+0041", "U+0042"].length ∧
     (∀ u ∈ ["U+0041", "U+0042"], ∃ i,
       unicode_to_index ["U+0041", "U+0042"] u = some i ∧
       index_to_unicode ["U+0041", "U+0042"] i = some u) ∧
     (∀ i, i < mappingLen ["U+0041", "U+0042"] → ∃ u,
       index_to_unicode ["U+0041", "U+0042"] i = some u ∧
       unicode_to_index ["U+0041", "U+0042"] u = some i)) :=
  ⟨by decide, mapping_bijective ["U+0041", "U+0042"] (by decide)⟩

/-- C9: for a mapping with pairwise-distinct unicode rows, `num_samples`
holds, at every class index, the number of annotation entries whose
unicode maps to that class, and its entries sum to the length of the
dataset. -/
theorem num_samples_histogram (entries unis : List String) (ls : List ℕ)
    (hnd : entries.Nodup) (hall : allLabels entries unis = some ls) :
    ls.length = unis.length ∧
    (∀ c, c < mappingLen entries →
      (numSamples (mappingLen entries) ls).getD c 0 = ls.count c) ∧
    (∀ c : ℕ, ls.count c = (unis.filter
      (fun u => unicode_to_index entries u == some c)).length) ∧
    (numSamples (mappingLen entries) ls).length = mappingLen entries ∧
    (numSamples (mappingLen entries) ls).sum = unis.length := by
  have hml : mappingLen entries = entries.length := by
    unfold mappingLen
    rw [List.Nodup.dedup hnd]
  have hb : ∀ l ∈ ls, l < (List.replicate (mappingLen entries) 0).length := by
    rw [List.length_replicate, hml]
    exact allLabels_lt hall
  refine ⟨allLabels_length hall, ?_, allLabels_count hall, ?_, ?_⟩
  · intro c hc
    unfold numSamples
    rw [numSamplesFold_getD ls (List.replicate (mappingLen entries) 0) c hb]
    rw [List.getD_eq_getElem?_getD, List.getElem?_replicate, if_pos hc]
    simp
  · unfold numSamples
    rw [numSamplesFold_length, List.length_replicate]
  · unfold numSamples
    rw [numSamplesFold_sum ls (List.replicate (mappingLen entries) 0) hb,
      allLabels_length hall]
    simp

/-- C9 witness: the histogram theorem applied to a concrete two-class
mapping and a three-annotation dataset. -/
theorem num_samples_histogram_check :
    (["U+0041", "U+0042"].Nodup ∧
     allLabels ["U+0041", "U+0042"] ["U+0042", "U+0041", "U+0042"]
       = some [1, 0, 1]) ∧
    (([1, 0, 1] : List ℕ).length
       = ["U+0042", "U+0041", "U+0042"].length ∧
     (∀ c, c < mappingLen ["U+0041", "U+0042"] →
       (numSamples (mappingLen ["U+0041", "U+0042"]) [1, 0, 1]).getD c 0
         = ([1, 0, 1] : List ℕ).count c) ∧
     (∀ c : ℕ, ([1, 0, 1] : List ℕ).count c
       = (["U+0042", "U+0041", "U+0042"].filter
           (fun u => unicode_to_index ["U+0041", "U+0042"] u == some c)
         ).length) ∧
     (numSamples (mappingLen ["U+0041", "U+0042"]) [1, 0, 1]).length
       = mappingLen ["U+0041", "U+0042"] ∧
     (numSamples (mappingLen ["U+0041", "U+0042"]) [1, 0, 1]).sum
       = ["U+0042", "U+0041", "U+0042"].length) :=
  ⟨⟨by decide, by decide⟩,
   num_samples_histogram ["U+0041", "U+0042"]
     ["U+0042", "U+0041", "U+0042"] [1, 0, 1] (by decide) (by decide)⟩

end KR
